import Mathlib

/-!
# Verification of the n-gram analysis front end's consistency core

Shallow embedding, in Lean 4, of the client-side state-management core of the
Science-n-grams-analysis-app repository:

* the pairwise normalizer (`frontend/src/utils/normalize.ts` and the
  page-local copy in `BinaryVotingPage`);
* the comparison-session manager of `BinaryVotingPage` (history, cursor,
  choice toggling, previous/next navigation, localStorage persistence);
* the stale-response guard of `FrequencyDashboardPage.fetchLeaderboard`;
* the sort-change handlers of the two paginated leaderboard controllers;
* the taxonomy disambiguator of `NgramFilterPanel` (ambiguous-subfield state
  machine and `applyFilters`).

JavaScript numbers that hold counts are modelled as rationals (ℚ); `NaN` is
modelled, where it can arise, by `Option` (`none` = NaN).  Network and
localStorage side effects are modelled as explicit request/event lists and an
explicit store value.
-/

namespace SciNgrams

/-! ## Pairwise normalizer (`frontend/src/utils/normalize.ts`) -/

/-- An `XY` time-series point (`{ date: string; count: number }`). -/
structure XY where
  date : String
  count : ℚ
deriving DecidableEq, Repr

/-- `safeDiv(a, b) = b === 0 ? 0 : a / b`. -/
def safeDiv (a b : ℚ) : ℚ := if b = 0 then 0 else a / b

/-- `Math.max(0, ...xs)`: maximum of a list of counts and `0`. -/
def jsMax0 (xs : List ℚ) : ℚ := xs.foldl max 0

/-- `normalizePair` from `frontend/src/utils/normalize.ts`: rescales both
series by the shared maximum `maxBoth = Math.max(maxL, maxR, 0)`, with
division by zero defined as `0` via `safeDiv`. -/
def normalizePair (left right : List XY) : List XY × List XY :=
  let maxL := jsMax0 (left.map (·.count))
  let maxR := jsMax0 (right.map (·.count))
  let maxBoth := max (max maxL maxR) 0
  (left.map (fun p => { p with count := safeDiv p.count maxBoth }),
   right.map (fun p => { p with count := safeDiv p.count maxBoth }))

/-- The page-local `normalizePair` of `BinaryVotingPage`:  identical except
that `maxBoth = Math.max(maxL, maxR, 0) || 1` replaces a zero maximum by `1`
before division. -/
def normalizePairLocal (left right : List XY) : List XY × List XY :=
  let maxL := jsMax0 (left.map (·.count))
  let maxR := jsMax0 (right.map (·.count))
  let m := max (max maxL maxR) 0
  let maxBoth := if m = 0 then 1 else m
  (left.map (fun p => { p with count := safeDiv p.count maxBoth }),
   right.map (fun p => { p with count := safeDiv p.count maxBoth }))

/-- Boolean predicate: every count of the series is non-negative. -/
def nonnegSeries (l : List XY) : Bool := l.all (fun p => decide (0 ≤ p.count))

/-- Boolean predicate: every count of the series lies in `[0, 1]`. -/
def inUnitInterval (l : List XY) : Bool :=
  l.all (fun p => decide (0 ≤ p.count) && decide (p.count ≤ 1))

/-- Boolean predicate: every count of the series is zero. -/
def allZeroSeries (l : List XY) : Bool := l.all (fun p => decide (p.count = 0))

theorem le_foldl_max (xs : List ℚ) (init : ℚ) : init ≤ xs.foldl max init := by
  induction xs generalizing init with
  | nil => exact le_refl _
  | cons x xs ih =>
    calc init ≤ max init x := le_max_left _ _
    _ ≤ xs.foldl max (max init x) := ih _

theorem mem_le_foldl_max {a : ℚ} {xs : List ℚ} (h : a ∈ xs) (init : ℚ) :
    a ≤ xs.foldl max init := by
  induction xs generalizing init with
  | nil => cases h
  | cons x xs ih =>
    rcases List.mem_cons.mp h with h | h
    · subst h
      calc a ≤ max init a := le_max_right _ _
      _ ≤ xs.foldl max (max init a) := le_foldl_max _ _
    · exact ih h _

theorem jsMax0_nonneg (xs : List ℚ) : 0 ≤ jsMax0 xs := le_foldl_max xs 0

theorem mem_le_jsMax0 {a : ℚ} {xs : List ℚ} (h : a ∈ xs) : a ≤ jsMax0 xs :=
  mem_le_foldl_max h 0

theorem safeDiv_mem_unit {c m : ℚ} (h0 : 0 ≤ c) (hm : c ≤ m) :
    0 ≤ safeDiv c m ∧ safeDiv c m ≤ 1 := by
  unfold safeDiv
  by_cases hz : m = 0
  · simp [hz]
  · have hmpos : 0 < m := lt_of_le_of_ne (le_trans h0 hm) (Ne.symm hz)
    rw [if_neg hz]
    exact ⟨div_nonneg h0 (le_of_lt hmpos), (div_le_one hmpos).mpr hm⟩

theorem nonnegSeries_iff (l : List XY) :
    nonnegSeries l = true ↔ ∀ p ∈ l, 0 ≤ p.count := by
  simp [nonnegSeries]

theorem allZeroSeries_iff (l : List XY) :
    allZeroSeries l = true ↔ ∀ p ∈ l, p.count = 0 := by
  simp [allZeroSeries]

theorem inUnitInterval_iff (l : List XY) :
    inUnitInterval l = true ↔ ∀ p ∈ l, 0 ≤ p.count ∧ p.count ≤ 1 := by
  simp [inUnitInterval]

/-- Counts of a series are bounded by the shared maximum used by
`normalizePair`. -/
theorem count_le_maxBoth {p : XY} {left right : List XY}
    (h : p ∈ left ∨ p ∈ right) :
    p.count ≤ max (max (jsMax0 (left.map (·.count))) (jsMax0 (right.map (·.count)))) 0 := by
  have h1 : p.count ∈ left.map (·.count) ∨ p.count ∈ right.map (·.count) := by
    rcases h with h | h
    · exact Or.inl (List.mem_map_of_mem _ h)
    · exact Or.inr (List.mem_map_of_mem _ h)
  rcases h1 with h1 | h1
  · exact le_max_of_le_left (le_max_of_le_left (mem_le_jsMax0 h1))
  · exact le_max_of_le_left (le_max_of_le_right (mem_le_jsMax0 h1))

/-- **C3 (counterexample).**  The claim quantifies over *all* input series
`left, right : XY[]`, but `normalizePair` does not clamp negative counts:
with `left = [{2020, -1}, {2020, 1}]` and `right = []` the shared maximum is
`1` and the first output count is `-1 ∉ [0, 1]`. -/
theorem normalizePair_range_counterexample :
    inUnitInterval (normalizePair [⟨"2020", -1⟩, ⟨"2020", 1⟩] []).1 = false ∧
    (normalizePair [⟨"2020", -1⟩, ⟨"2020", 1⟩] []).1 =
      [⟨"2020", -1⟩, ⟨"2020", 1⟩] := by
  constructor
  · simp [normalizePair, jsMax0, safeDiv, inUnitInterval]
  · simp [normalizePair, jsMax0, safeDiv]

/-- **C3 (amended).**  For input series whose counts are all non-negative,
every output count of `normalizePair` lies in `[0, 1]`; and if every input
count is zero, every output count is exactly `0`.  (In the rational model no
`NaN`/`Infinity` value exists: `safeDiv` defines division by a zero maximum
to be `0`.) -/
theorem normalizePair_range (left right : List XY)
    (hl : nonnegSeries left = true) (hr : nonnegSeries right = true) :
    inUnitInterval (normalizePair left right).1 = true ∧
    inUnitInterval (normalizePair left right).2 = true ∧
    (allZeroSeries left = true → allZeroSeries right = true →
      allZeroSeries (normalizePair left right).1 = true ∧
      allZeroSeries (normalizePair left right).2 = true) := by
  rw [nonnegSeries_iff] at hl hr
  refine ⟨?_, ?_, ?_⟩
  · rw [inUnitInterval_iff]
    intro p hp
    simp only [normalizePair, List.mem_map] at hp
    obtain ⟨q, hq, rfl⟩ := hp
    exact safeDiv_mem_unit (hl q hq) (count_le_maxBoth (Or.inl hq))
  · rw [inUnitInterval_iff]
    intro p hp
    simp only [normalizePair, List.mem_map] at hp
    obtain ⟨q, hq, rfl⟩ := hp
    exact safeDiv_mem_unit (hr q hq) (count_le_maxBoth (Or.inr hq))
  · intro hzl hzr
    rw [allZeroSeries_iff] at hzl hzr ⊢
    rw [allZeroSeries_iff (l := (normalizePair left right).2)]
    constructor
    · intro p hp
      simp only [normalizePair, List.mem_map] at hp
      obtain ⟨q, hq, rfl⟩ := hp
      simp [safeDiv, hzl q hq]
    · intro p hp
      simp only [normalizePair, List.mem_map] at hp
      obtain ⟨q, hq, rfl⟩ := hp
      simp [safeDiv, hzr q hq]

/-- Witness for `normalizePair_range` at a concrete all-zero input. -/
theorem normalizePair_range_witness :
    nonnegSeries [XY.mk "2020" 0, XY.mk "2021" 0] = true ∧
    nonnegSeries [XY.mk "2020" 0] = true ∧
    (inUnitInterval (normalizePair [XY.mk "2020" 0, XY.mk "2021" 0] [XY.mk "2020" 0]).1 = true ∧
     inUnitInterval (normalizePair [XY.mk "2020" 0, XY.mk "2021" 0] [XY.mk "2020" 0]).2 = true ∧
     (allZeroSeries [XY.mk "2020" 0, XY.mk "2021" 0] = true →
      allZeroSeries [XY.mk "2020" 0] = true →
       allZeroSeries (normalizePair [XY.mk "2020" 0, XY.mk "2021" 0] [XY.mk "2020" 0]).1 = true ∧
       allZeroSeries (normalizePair [XY.mk "2020" 0, XY.mk "2021" 0] [XY.mk "2020" 0]).2 = true)) :=
  ⟨by decide, by decide,
    normalizePair_range [XY.mk "2020" 0, XY.mk "2021" 0] [XY.mk "2020" 0]
      (by decide) (by decide)⟩

/-- **C10.**  On input series whose counts are all non-negative, the
page-local `normalizePair` of `BinaryVotingPage` (`maxBoth || 1`) and the
shared utility `normalizePair` (`safeDiv` by zero is `0`) return pointwise
equal outputs: when the shared maximum is zero all counts are zero, so
dividing by `1` and returning `0` coincide. -/
theorem normalizePairLocal_agrees (left right : List XY)
    (hl : nonnegSeries left = true) (hr : nonnegSeries right = true) :
    normalizePairLocal left right = normalizePair left right := by
  rw [nonnegSeries_iff] at hl hr
  simp only [normalizePairLocal, normalizePair]
  refine congrArg₂ Prod.mk ?_ ?_
  · refine List.map_congr_left (fun p hp => ?_)
    by_cases hz :
        (max (max (jsMax0 (left.map (·.count))) (jsMax0 (right.map (·.count)))) 0) = 0
    · have hc : p.count = 0 :=
        le_antisymm (hz ▸ count_le_maxBoth (Or.inl hp)) (hl p hp)
      simp [hz, hc, safeDiv]
    · simp [hz]
  · refine List.map_congr_left (fun p hp => ?_)
    by_cases hz :
        (max (max (jsMax0 (left.map (·.count))) (jsMax0 (right.map (·.count)))) 0) = 0
    · have hc : p.count = 0 :=
        le_antisymm (hz ▸ count_le_maxBoth (Or.inr hp)) (hr p hp)
      simp [hz, hc, safeDiv]
    · simp [hz]

/-- Witness for `normalizePairLocal_agrees` at a concrete input. -/
theorem normalizePairLocal_agrees_witness :
    nonnegSeries [XY.mk "2019" 3, XY.mk "2020" 0] = true ∧
    nonnegSeries [XY.mk "2019" 6] = true ∧
    normalizePairLocal [XY.mk "2019" 3, XY.mk "2020" 0] [XY.mk "2019" 6] =
      normalizePair [XY.mk "2019" 3, XY.mk "2020" 0] [XY.mk "2019" 6] :=
  ⟨by decide, by decide,
    normalizePairLocal_agrees [XY.mk "2019" 3, XY.mk "2020" 0] [XY.mk "2019" 6]
      (by decide) (by decide)⟩

/-! ## Paginated leaderboard query controller (`FrequencyDashboardPage`)

`fetchLeaderboard` captures `reqId = ++lastReqId.current` at issue time,
shows `pendingPage` immediately, and applies the response to `ngrams` /
`totalPages` / `page` only if `reqId` still equals `lastReqId.current` when
the response arrives.  Issuing and resolving are modelled as two explicit
steps of a state machine. -/

/-- A row of the frequency leaderboard (`NgramRow` in `LeaderboardTable`). -/
structure NgramRow where
  id : Nat
  text : String
  domain : String
  field : String
  subfield : String
  domain_id : Nat
  field_id : Nat
  subfield_id : Nat
  n_words : Nat
  df_ngram : Nat
  df_ngram_subfield : Nat
deriving DecidableEq, Repr

/-- The visible state of `FrequencyDashboardPage` touched by
`fetchLeaderboard`. -/
structure LeaderboardState where
  lastReqId : Nat
  ngrams : List NgramRow
  totalPages : Nat
  page : Nat
  pendingPage : Nat
  isLoading : Bool
deriving DecidableEq, Repr

/-- The body of a `/v1/leaderboard` response (`res.data`). -/
structure LeaderboardResponse where
  data : List NgramRow
  total_pages : Nat
deriving DecidableEq, Repr

/-- The synchronous prefix of `fetchLeaderboard(pageArg)`:
`const reqId = ++lastReqId.current; setIsLoading(true); setPendingPage(pageArg)`.
Returns the new state together with the captured `reqId`. -/
def issueLeaderboard (st : LeaderboardState) (pageArg : Nat) :
    LeaderboardState × Nat :=
  let reqId := st.lastReqId + 1
  ({ st with lastReqId := reqId, isLoading := true, pendingPage := pageArg }, reqId)

/-- The continuation of `fetchLeaderboard` after `await api.get(...)`
resolves: `if (reqId !== lastReqId.current) return;` (only the `finally`
clause runs, which also skips `setIsLoading(false)` for a stale id),
otherwise commit `ngrams`, `totalPages` and `page`. -/
def resolveLeaderboard (st : LeaderboardState) (reqId : Nat) (pageArg : Nat)
    (res : LeaderboardResponse) : LeaderboardState :=
  if reqId = st.lastReqId then
    { st with ngrams := res.data, totalPages := res.total_pages,
              page := pageArg, isLoading := false }
  else st

/-- Any response whose captured id is not the current counter value leaves
the whole visible state unchanged. -/
theorem resolveLeaderboard_stale (st : LeaderboardState) (reqId pageArg : Nat)
    (res : LeaderboardResponse) (h : reqId ≠ st.lastReqId) :
    resolveLeaderboard st reqId pageArg res = st := by
  simp [resolveLeaderboard, h]

/-- **C1.**  Stale-response guard: from any controller state, if request A
(for page `pA`) is issued before request B (for page `pB`) and B's response
`rB` resolves before A's response `rA`, the final committed rows, total
pages and committed page are those of B; the late A response is discarded
because its captured id no longer equals the monotonic counter. -/
theorem staleGuard_last_issued_wins (st : LeaderboardState) (pA pB : Nat)
    (rA rB : LeaderboardResponse) :
    resolveLeaderboard
      (resolveLeaderboard (issueLeaderboard (issueLeaderboard st pA).1 pB).1
        (issueLeaderboard (issueLeaderboard st pA).1 pB).2 pB rB)
      (issueLeaderboard st pA).2 pA rA =
    { lastReqId := st.lastReqId + 2, ngrams := rB.data,
      totalPages := rB.total_pages, page := pB, pendingPage := pB,
      isLoading := false } := by
  have hne : st.lastReqId + 1 ≠ st.lastReqId + 2 := by omega
  simp [issueLeaderboard, resolveLeaderboard, hne]

/-! ## Sort-change handlers of the two leaderboard controllers -/

/-- Sort direction (`"asc" | "desc"`). -/
inductive SortOrder where
  | asc
  | desc
deriving DecidableEq, Repr

/-- Sort state of `FrequencyDashboardPage` (`sortBy : string`). -/
structure FreqSortState where
  sortBy : String
  sortOrder : SortOrder
deriving DecidableEq, Repr

/-- `handleSortChange` of `FrequencyDashboardPage`: toggling the active
field flips the direction; a new field always starts `"desc"`. -/
def handleSortChangeFreq (st : FreqSortState) (field : String) : FreqSortState :=
  if field = st.sortBy then
    { st with sortOrder := match st.sortOrder with
        | .asc => .desc
        | .desc => .asc }
  else
    { sortBy := field, sortOrder := .desc }

/-- Sort field of `BurstPage` (`"score" | "ngram" | "normalized_score"`). -/
inductive BurstSortField where
  | score
  | ngram
  | normalized_score
deriving DecidableEq, Repr

/-- Sort state of `BurstPage`. -/
structure BurstSortState where
  sortBy : BurstSortField
  sortOrder : SortOrder
deriving DecidableEq, Repr

/-- `handleSortChange` of `BurstPage`: toggling the active field flips the
direction; a new field starts `"asc"` for the lexical `ngram` column and
`"desc"` otherwise. -/
def handleSortChangeBurst (st : BurstSortState) (field : BurstSortField) :
    BurstSortState :=
  if field = st.sortBy then
    { st with sortOrder := match st.sortOrder with
        | .asc => .desc
        | .desc => .asc }
  else
    { sortBy := field,
      sortOrder := if field = .ngram then .asc else .desc }

/-- Direction flip (`o === "asc" ? "desc" : "asc"`). -/
def SortOrder.flip : SortOrder → SortOrder
  | .asc => .desc
  | .desc => .asc

/-- **C6 (counterexample).**  In `FrequencyDashboardPage`, choosing the
lexical column `"text"` while `"df_ngram"` is active sets the direction to
`desc`, not the `asc` the claim requires for lexical fields. -/
theorem handleSortChange_counterexample :
    handleSortChangeFreq ⟨"df_ngram", SortOrder.asc⟩ "text" =
      ⟨"text", SortOrder.desc⟩ ∧
    SortOrder.desc ≠ SortOrder.asc := by
  constructor
  · decide
  · decide

/-- **C6 (amended).**  Both controllers flip the direction when the
sort-change handler is invoked on the already-active field.  On a new field,
`BurstPage` defaults to ascending for the lexical `ngram` field and
descending for the numeric score fields, while `FrequencyDashboardPage`
always defaults to descending — including for its lexical `"text"` column. -/
theorem handleSortChange_semantics :
    (∀ st : FreqSortState,
      handleSortChangeFreq st st.sortBy = ⟨st.sortBy, st.sortOrder.flip⟩) ∧
    (∀ st : BurstSortState,
      handleSortChangeBurst st st.sortBy = ⟨st.sortBy, st.sortOrder.flip⟩) ∧
    (∀ (st : BurstSortState) (f : BurstSortField), f ≠ st.sortBy →
      handleSortChangeBurst st f =
        ⟨f, if f = .ngram then .asc else .desc⟩) ∧
    (∀ (st : FreqSortState) (f : String), f ≠ st.sortBy →
      handleSortChangeFreq st f = ⟨f, .desc⟩) := by
  refine ⟨?_, ?_, ?_, ?_⟩
  · intro st
    cases h : st.sortOrder <;> simp [handleSortChangeFreq, SortOrder.flip, h]
  · intro st
    cases h : st.sortOrder <;> simp [handleSortChangeBurst, SortOrder.flip, h]
  · intro st f hf
    simp [handleSortChangeBurst, hf]
  · intro st f hf
    simp [handleSortChangeFreq, hf]

/-- Witness for `handleSortChange_semantics` at concrete states. -/
theorem handleSortChange_semantics_witness :
    handleSortChangeFreq ⟨"text", SortOrder.asc⟩ "text" =
      ⟨"text", SortOrder.desc⟩ ∧
    handleSortChangeBurst ⟨.normalized_score, SortOrder.desc⟩ .normalized_score =
      ⟨.normalized_score, SortOrder.asc⟩ ∧
    BurstSortField.ngram ≠ BurstSortField.normalized_score ∧
    handleSortChangeBurst ⟨.normalized_score, SortOrder.desc⟩ .ngram =
      ⟨.ngram, SortOrder.asc⟩ ∧
    "df_ngram" ≠ "text" ∧
    handleSortChangeFreq ⟨"text", SortOrder.asc⟩ "df_ngram" =
      ⟨"df_ngram", SortOrder.desc⟩ :=
  ⟨handleSortChange_semantics.1 ⟨"text", SortOrder.asc⟩,
   handleSortChange_semantics.2.1 ⟨.normalized_score, SortOrder.desc⟩,
   by decide,
   by
     have := handleSortChange_semantics.2.2.1
       ⟨.normalized_score, SortOrder.desc⟩ .ngram (by decide)
     simpa using this,
   by decide,
   handleSortChange_semantics.2.2.2 ⟨"text", SortOrder.asc⟩ "df_ngram" (by decide)⟩

/-! ## Comparison session manager (`BinaryVotingPage`)

The page owns `history : PairEntry[]`, a cursor `pos` (`-1` before any pair
is shown), and a response-time start `rtStartRef`.  The user is always
present on this page (a missing user redirects to `/login`), so the model
carries `user_id` directly.  Network calls issued by the handlers are
modelled as an explicit request list. -/

/-- A committed choice (`"left" | "right"`). -/
inductive Choice where
  | left
  | right
deriving DecidableEq, Repr

/-- `PairEntry` of `BinaryVotingPage`. -/
structure PairEntry where
  index : Nat
  total : Nat
  left_id : Nat
  right_id : Nat
  leftData : Option (List XY)
  rightData : Option (List XY)
  leftNorm : Option (List XY)
  rightNorm : Option (List XY)
  choice : Option Choice
deriving DecidableEq, Repr

/-- A network request issued by `BinaryVotingPage` through `api/client.ts`.
`pairAt` is `getBinaryPair(user_id, index)` — the only index-addressed pair
request the API offers; the page never issues it. -/
inductive Request where
  | submitVote (user_id pair_index left_id right_id : Nat) (choice : Choice)
      (rt_ms : Int)
  | nextPair (user_id : Nat)
  | pairAt (user_id index : Nat)
  | frequency (ngram_id : Nat)
deriving DecidableEq, Repr

/-- The handler-relevant state of `BinaryVotingPage`. -/
structure VotingState where
  user_id : Nat
  history : List PairEntry
  pos : Int
  rtStart : Int
deriving DecidableEq, Repr

/-- `const current = pos >= 0 ? history[pos] : undefined`; an out-of-range
index also yields `undefined`. -/
def currentPair (st : VotingState) : Option PairEntry :=
  if 0 ≤ st.pos then st.history.get? st.pos.toNat else none

/-- `selectChoice(choice)`: no-op without a current pair; otherwise replaces
`history[pos].choice` by `undefined` when it already equals `choice`
(toggle-off) and by `choice` otherwise.  All other fields of the entry and
the rest of the state are kept. -/
def selectChoice (st : VotingState) (c : Choice) : VotingState :=
  match currentPair st with
  | none => st
  | some cur =>
    let newChoice : Option Choice := if cur.choice = some c then none else some c
    { st with history := st.history.set st.pos.toNat { cur with choice := newChoice } }

/-- `onPrev` at time `now`: decrement `pos` when `pos > 0` and reset the
response timer; no-op at the start boundary.  It issues no request. -/
def onPrev (st : VotingState) (now : Int) : VotingState :=
  if 0 < st.pos then { st with pos := st.pos - 1, rtStart := now } else st

/-- `onNext` at time `now` (success path of `submitBinaryVote`): no-op
without a current pair or without a committed choice; otherwise submits the
current pair's vote with `rt_ms = now - rtStart`, then — only when `pos` is
the last history index — issues the next-pair fetch, and otherwise simply
advances the cursor.  Returns the new state and the requests issued. -/
def onNext (st : VotingState) (now : Int) : VotingState × List Request :=
  match currentPair st with
  | none => (st, [])
  | some cur =>
    match cur.choice with
    | none => (st, [])
    | some c =>
      let req := Request.submitVote st.user_id cur.index cur.left_id cur.right_id c
        (now - st.rtStart)
      if st.pos = (st.history.length : Int) - 1 then
        (st, [req, Request.nextPair st.user_id])
      else
        ({ st with pos := st.pos + 1, rtStart := now }, [req])

/-- Recognizer for vote submissions among issued requests. -/
def Request.isSubmit : Request → Bool
  | .submitVote _ _ _ _ _ _ => true
  | _ => false

/-- Recognizer for pair-fetching requests (`nextPair` or `pairAt`). -/
def Request.isPairFetch : Request → Bool
  | .nextPair _ => true
  | .pairAt _ _ => true
  | _ => false

theorem currentPair_some {st : VotingState} {cur : PairEntry}
    (h : currentPair st = some cur) :
    0 ≤ st.pos ∧ st.history.get? st.pos.toNat = some cur := by
  unfold currentPair at h
  by_cases h0 : 0 ≤ st.pos
  · rw [if_pos h0] at h
    exact ⟨h0, h⟩
  · rw [if_neg h0] at h
    cases h

theorem selectChoice_eq {st : VotingState} {cur : PairEntry}
    (h : currentPair st = some cur) (c : Choice) :
    selectChoice st c =
      { st with history := st.history.set st.pos.toNat { cur with choice := if cur.choice = some c then none else some c } } := by
  unfold selectChoice
  rw [h]

theorem currentPair_selectChoice {st : VotingState} {cur : PairEntry}
    (h : currentPair st = some cur) (c : Choice) :
    currentPair (selectChoice st c) =
      some { cur with choice := if cur.choice = some c then none else some c } := by
  obtain ⟨h0, hget⟩ := currentPair_some h
  have hlt : st.pos.toNat < st.history.length := by
    by_contra hge
    rw [List.get?_eq_none.mpr (le_of_not_lt hge)] at hget
    cases hget
  rw [selectChoice_eq h c]
  unfold currentPair
  simp only [if_pos h0]
  exact List.get?_set_eq_of_lt _ hlt

/-- **C8.**  Choice toggle law of `selectChoice`: on the current pair,
selecting the choice it already carries clears it, selecting anything else
sets it; so two identical clicks in a row clear the choice and a third
re-sets it.  All other fields of the pair (`{ cur with choice := _ }`), all
other history entries, and the cursor are unchanged. -/
theorem selectChoice_toggle {st : VotingState} {cur : PairEntry} (c : Choice)
    (h : currentPair st = some cur) :
    (selectChoice st c).pos = st.pos ∧
    (selectChoice st c).user_id = st.user_id ∧
    (selectChoice st c).rtStart = st.rtStart ∧
    (∀ i : Nat, i ≠ st.pos.toNat →
      (selectChoice st c).history.get? i = st.history.get? i) ∧
    (cur.choice = some c →
      currentPair (selectChoice st c) = some { cur with choice := none }) ∧
    (cur.choice ≠ some c →
      currentPair (selectChoice st c) = some { cur with choice := some c } ∧
      currentPair (selectChoice (selectChoice st c) c) =
        some { cur with choice := none } ∧
      currentPair (selectChoice (selectChoice (selectChoice st c) c) c) =
        some { cur with choice := some c }) := by
  refine ⟨?_, ?_, ?_, ?_, ?_, ?_⟩
  · rw [selectChoice_eq h c]
  · rw [selectChoice_eq h c]
  · rw [selectChoice_eq h c]
  · intro i hi
    rw [selectChoice_eq h c]
    exact List.get?_set_ne _ _ (fun hh => hi hh.symm)
  · intro hc
    rw [currentPair_selectChoice h c]
    simp [hc]
  · intro hc
    have h1 := currentPair_selectChoice h c
    rw [if_neg hc] at h1
    refine ⟨h1, ?_, ?_⟩
    · have h2 := currentPair_selectChoice h1 c
      rw [if_pos rfl] at h2
      exact h2
    · have h2 := currentPair_selectChoice h1 c
      rw [if_pos rfl] at h2
      have h3 := currentPair_selectChoice h2 c
      rw [if_neg (by simp)] at h3
      exact h3

/-- Concrete session used as witness/counterexample input: user 7, two
fetched pairs, both with committed choices, cursor on the second pair. -/
def demoPair0 : PairEntry :=
  ⟨0, 100, 10, 11, none, none, none, none, some Choice.left⟩

/-- Second concrete pair of the demo session. -/
def demoPair1 : PairEntry :=
  ⟨1, 100, 12, 13, none, none, none, none, some Choice.right⟩

/-- Demo session state: `history = [demoPair0, demoPair1]`, `cursor = 1`. -/
def demoSession : VotingState := ⟨7, [demoPair0, demoPair1], 1, 0⟩

/-- Witness for `selectChoice_toggle` on the demo session. -/
theorem selectChoice_toggle_witness :
    currentPair demoSession = some demoPair1 ∧
    ((selectChoice demoSession Choice.left).pos = demoSession.pos ∧
     (selectChoice demoSession Choice.left).user_id = demoSession.user_id ∧
     (selectChoice demoSession Choice.left).rtStart = demoSession.rtStart ∧
     (∀ i : Nat, i ≠ demoSession.pos.toNat →
       (selectChoice demoSession Choice.left).history.get? i =
         demoSession.history.get? i) ∧
     (demoPair1.choice = some Choice.left →
       currentPair (selectChoice demoSession Choice.left) =
         some { demoPair1 with choice := none }) ∧
     (demoPair1.choice ≠ some Choice.left →
       currentPair (selectChoice demoSession Choice.left) =
         some { demoPair1 with choice := some Choice.left } ∧
       currentPair (selectChoice (selectChoice demoSession Choice.left)
           Choice.left) = some { demoPair1 with choice := none } ∧
       currentPair (selectChoice (selectChoice (selectChoice demoSession
           Choice.left) Choice.left) Choice.left) =
         some { demoPair1 with choice := some Choice.left })) :=
  ⟨by decide, selectChoice_toggle Choice.left (by decide)⟩

/-- **C2 (counterexample).**  On the demo session (cursor on pair 1, pair 0
already voted `left`), `onPrev` followed by `onNext` issues a
`submitBinaryVote` request for pair 0 again: `onNext` submits the current
pair's vote unconditionally before checking the cursor position, so
re-advancing across an already-voted pair re-submits its vote, contradicting
the claim.  (`onPrev` at time 5, `onNext` at time 9.) -/
theorem goPrev_goNext_counterexample :
    (onNext (onPrev demoSession 5) 9).2 =
      [Request.submitVote 7 0 10 11 Choice.left 4] ∧
    ((onNext (onPrev demoSession 5) 9).2.any Request.isSubmit = true) := by
  constructor
  · decide
  · decide

/-- **C2 (amended).**  For a session with cursor `k ≥ 1` whose pair `k−1`
carries a committed choice and `k ≤ history.length − 1`: `onPrev` followed
by `onNext` returns the cursor to the same pair `k` with the history intact,
and issues **no** pair-fetch request — but it does re-submit the vote of
pair `k−1` (same pair index, so idempotent server-side); the request list is
exactly that single re-submission. -/
theorem goPrev_goNext_roundtrip {st : VotingState} {prev : PairEntry}
    {c : Choice} (now1 now2 : Int)
    (h1 : 1 ≤ st.pos)
    (h2 : st.history.get? (st.pos - 1).toNat = some prev)
    (h3 : prev.choice = some c)
    (h4 : st.pos ≤ (st.history.length : Int) - 1) :
    (onNext (onPrev st now1) now2).1.pos = st.pos ∧
    (onNext (onPrev st now1) now2).1.history = st.history ∧
    (onNext (onPrev st now1) now2).2 =
      [Request.submitVote st.user_id prev.index prev.left_id prev.right_id c
        (now2 - now1)] ∧
    ((onNext (onPrev st now1) now2).2.filter Request.isPairFetch) = [] := by
  have hprev : onPrev st now1 = { st with pos := st.pos - 1, rtStart := now1 } := by
    unfold onPrev
    rw [if_pos (by omega)]
  have hcur : currentPair (onPrev st now1) = some prev := by
    rw [hprev]
    unfold currentPair
    rw [if_pos (by omega : (0:Int) ≤ st.pos - 1)]
    exact h2
  have hlen : (st.pos - 1) ≠ (st.history.length : Int) - 1 := by omega
  have hnext : onNext (onPrev st now1) now2 =
      ({ st with pos := st.pos, rtStart := now2 },
       [Request.submitVote st.user_id prev.index prev.left_id prev.right_id c
         (now2 - now1)]) := by
    unfold onNext
    rw [hcur]
    simp only [h3, hprev]
    rw [if_neg (by simpa using hlen)]
    simp only [VotingState.mk.injEq, Prod.mk.injEq, and_true, true_and]
    omega
  rw [hnext]
  refine ⟨rfl, rfl, rfl, rfl⟩

/-- Witness for `goPrev_goNext_roundtrip` on the demo session. -/
theorem goPrev_goNext_roundtrip_witness :
    (1 ≤ demoSession.pos ∧
     demoSession.history.get? (demoSession.pos - 1).toNat = some demoPair0 ∧
     demoPair0.choice = some Choice.left ∧
     demoSession.pos ≤ (demoSession.history.length : Int) - 1) ∧
    ((onNext (onPrev demoSession 5) 9).1.pos = demoSession.pos ∧
     (onNext (onPrev demoSession 5) 9).1.history = demoSession.history ∧
     (onNext (onPrev demoSession 5) 9).2 =
       [Request.submitVote demoSession.user_id demoPair0.index
         demoPair0.left_id demoPair0.right_id Choice.left (9 - 5)] ∧
     ((onNext (onPrev demoSession 5) 9).2.filter Request.isPairFetch) = []) :=
  ⟨⟨by decide, by decide, by decide, by decide⟩,
   goPrev_goNext_roundtrip 5 9 (by decide) (by decide) (by decide) (by decide)⟩

/-! ## Durable storage (`localStorage`) of the comparison session

`BinaryVotingPage` persists its history under `history_<user_id>` (as
`JSON.stringify(history)`) and its cursor under `position_<user_id>` (as
`position.toString()`), and restores them in the load effect.  The history
slot is modelled by the parse outcome of the stored string (`JSON.parse`
inverts `JSON.stringify` on these records; a string it throws on is
`malformed`).  The position slot is a plain string, read back through a
faithful model of `parseInt(s, 10)` — whose `NaN` outcome is `none`. -/

/-- Whitespace skipped by `parseInt`. -/
def isJsSpace (c : Char) : Bool := c == ' ' || c == '\t' || c == '\n' || c == '\r'

/-- Value of a digit list read left to right (`parseInt` accumulation; 48 is
the character code of `'0'`). -/
def digitsToNat (cs : List Char) : Nat :=
  cs.foldl (fun acc c => acc * 10 + (c.toNat - 48)) 0

/-- Sign/digit scanning of `parseInt` after whitespace stripping. -/
def parseIntCore (cs : List Char) : Option Int :=
  let sign : Int := if cs.head? = some '-' then -1 else 1
  let rest := if cs.head? = some '-' ∨ cs.head? = some '+' then cs.tail else cs
  let digits := rest.takeWhile Char.isDigit
  if digits.isEmpty then none else some (sign * (digitsToNat digits : Int))

/-- Model of `parseInt(s, 10)`: skip leading whitespace, consume an optional
sign, then the maximal digit prefix; `none` models the `NaN` result when no
digit is found.  `parseInt` never throws. -/
def jsParseInt (s : String) : Option Int :=
  parseIntCore (s.data.dropWhile isJsSpace)

/-- The decimal digit character for a value `< 10`. -/
def digitChar (d : Nat) : Char :=
  match d with
  | 0 => '0' | 1 => '1' | 2 => '2' | 3 => '3' | 4 => '4'
  | 5 => '5' | 6 => '6' | 7 => '7' | 8 => '8' | _ => '9'

/-- Decimal digits of `n`, most significant first. -/
def natDigits (n : Nat) : List Char :=
  if _h : n < 10 then [digitChar n]
  else natDigits (n / 10) ++ [digitChar (n % 10)]
  decreasing_by exact Nat.div_lt_self (by omega) (by omega)

/-- Model of `Number.prototype.toString` on an integral JS number (what
`savePositionToLocalStorage` writes). -/
def jsIntToString (p : Int) : String :=
  if p < 0 then ⟨'-' :: natDigits (-p).toNat⟩ else ⟨natDigits p.toNat⟩

theorem digitChar_isDigit {d : Nat} (h : d < 10) : (digitChar d).isDigit = true := by
  interval_cases d <;> decide

theorem digitChar_val {d : Nat} (h : d < 10) : (digitChar d).toNat - 48 = d := by
  interval_cases d <;> decide

theorem natDigits_isDigit {n : Nat} : ∀ c ∈ natDigits n, c.isDigit = true := by
  induction n using Nat.strong_induction_on with
  | _ n ih =>
    intro c hc
    by_cases h10 : n < 10
    · rw [natDigits, dif_pos h10] at hc
      rcases List.mem_singleton.mp hc with rfl
      exact digitChar_isDigit h10
    · rw [natDigits, dif_neg h10] at hc
      rcases List.mem_append.mp hc with hc | hc
      · exact ih (n / 10) (Nat.div_lt_self (by omega) (by omega)) c hc
      · rcases List.mem_singleton.mp hc with rfl
        exact digitChar_isDigit (Nat.mod_lt _ (by omega))

theorem natDigits_ne_nil (n : Nat) : natDigits n ≠ [] := by
  by_cases h10 : n < 10
  · rw [natDigits, dif_pos h10]
    simp
  · rw [natDigits, dif_neg h10]
    simp

theorem digitsToNat_append (cs : List Char) (c : Char) :
    digitsToNat (cs ++ [c]) = 10 * digitsToNat cs + (c.toNat - 48) := by
  unfold digitsToNat
  rw [List.foldl_append]
  simp [Nat.mul_comm]

theorem digitsToNat_natDigits (n : Nat) : digitsToNat (natDigits n) = n := by
  induction n using Nat.strong_induction_on with
  | _ n ih =>
    by_cases h10 : n < 10
    · rw [natDigits, dif_pos h10]
      have hv := digitChar_val h10
      unfold digitsToNat
      simpa using hv
    · rw [natDigits, dif_neg h10, digitsToNat_append,
        ih (n / 10) (Nat.div_lt_self (by omega) (by omega)),
        digitChar_val (Nat.mod_lt _ (by omega))]
      omega

theorem isJsSpace_eq_false_of_isDigit {c : Char} (h : c.isDigit = true) :
    isJsSpace c = false := by
  rcases hc : isJsSpace c with _ | _
  · rfl
  · exfalso
    unfold isJsSpace at hc
    simp only [Bool.or_eq_true, beq_iff_eq] at hc
    rcases hc with ((rfl | rfl) | rfl) | rfl <;> exact absurd h (by decide)

theorem ne_minus_of_isDigit {c : Char} (h : c.isDigit = true) : c ≠ '-' := by
  rintro rfl
  exact absurd h (by decide)

theorem ne_plus_of_isDigit {c : Char} (h : c.isDigit = true) : c ≠ '+' := by
  rintro rfl
  exact absurd h (by decide)

theorem takeWhile_of_all {p : Char → Bool} {l : List Char}
    (h : ∀ c ∈ l, p c = true) : l.takeWhile p = l := by
  induction l with
  | nil => rfl
  | cons c cs ih =>
    rw [List.takeWhile_cons, h c (List.mem_cons_self _ _)]
    simp only [if_true]
    rw [ih (fun d hd => h d (List.mem_cons_of_mem _ hd))]

theorem dropWhile_digits {l : List Char} (h : ∀ c ∈ l, c.isDigit = true) :
    l.dropWhile isJsSpace = l := by
  cases l with
  | nil => rfl
  | cons c cs =>
    rw [List.dropWhile_cons,
      isJsSpace_eq_false_of_isDigit (h c (List.mem_cons_self _ _))]
    simp

theorem parseIntCore_digits {l : List Char} (hne : l ≠ [])
    (hall : ∀ c ∈ l, c.isDigit = true) :
    parseIntCore l = some ((digitsToNat l : Int)) := by
  obtain ⟨c, cs, rfl⟩ := List.exists_cons_of_ne_nil hne
  have hcdig := hall c (List.mem_cons_self _ _)
  have hm : ¬ ((c :: cs).head? = some '-') := by
    simp only [List.head?_cons, Option.some.injEq]
    exact ne_minus_of_isDigit hcdig
  have hp : ¬ ((c :: cs).head? = some '+') := by
    simp only [List.head?_cons, Option.some.injEq]
    exact ne_plus_of_isDigit hcdig
  have hor : ¬ ((c :: cs).head? = some '-' ∨ (c :: cs).head? = some '+') :=
    fun h => Or.elim h hm hp
  simp only [parseIntCore, if_neg hm, if_neg hor]
  rw [takeWhile_of_all hall]
  rw [if_neg (by simp)]
  simp

theorem parseIntCore_neg_digits {l : List Char} (hne : l ≠ [])
    (hall : ∀ c ∈ l, c.isDigit = true) :
    parseIntCore ('-' :: l) = some (-(digitsToNat l : Int)) := by
  obtain ⟨c, cs, rfl⟩ := List.exists_cons_of_ne_nil hne
  simp only [parseIntCore, List.head?_cons, List.tail_cons, true_or, if_true]
  rw [takeWhile_of_all hall]
  rw [if_neg (by simp)]
  simp

theorem jsParseInt_natDigits (n : Nat) :
    jsParseInt ⟨natDigits n⟩ = some ((n : Int)) := by
  show parseIntCore ((natDigits n).dropWhile isJsSpace) = some ((n : Int))
  rw [dropWhile_digits natDigits_isDigit,
    parseIntCore_digits (natDigits_ne_nil n) natDigits_isDigit,
    digitsToNat_natDigits]

/-- `parseInt(String(p), 10) = p` for every integral JS number `p`. -/
theorem jsParseInt_jsIntToString (p : Int) :
    jsParseInt (jsIntToString p) = some p := by
  by_cases hneg : p < 0
  · have hs : jsIntToString p = ⟨'-' :: natDigits (-p).toNat⟩ := by
      unfold jsIntToString
      rw [if_pos hneg]
    rw [hs]
    show parseIntCore (('-' :: natDigits (-p).toNat).dropWhile isJsSpace) = some p
    rw [List.dropWhile_cons]
    norm_num [show isJsSpace '-' = false from rfl]
    rw [parseIntCore_neg_digits (natDigits_ne_nil _) natDigits_isDigit,
      digitsToNat_natDigits]
    congr 1
    omega
  · have hs : jsIntToString p = ⟨natDigits p.toNat⟩ := by
      unfold jsIntToString
      rw [if_neg hneg]
    rw [hs, jsParseInt_natDigits]
    congr 1
    omega

theorem jsIntToString_ne_empty (p : Int) : jsIntToString p ≠ "" := by
  unfold jsIntToString
  by_cases h : p < 0
  · rw [if_pos h]
    intro hc
    have hd : ('-' :: natDigits (-p).toNat) = "".data := congrArg String.data hc
    simp at hd
  · rw [if_neg h]
    intro hc
    have hd : natDigits p.toNat = "".data := congrArg String.data hc
    exact natDigits_ne_nil _ (by simpa using hd)

/-- A value stored under the history key, partitioned by `JSON.parse`
outcome: `json h` stands for `JSON.stringify(h)` (which `JSON.parse`
inverts on these plain records); `malformed s` stands for a string on which
`JSON.parse` throws (including the empty string, which the loader maps to
`[]` without parsing). -/
inductive HistStored where
  | json (h : List PairEntry)
  | malformed (s : String)
deriving DecidableEq, Repr

/-- The per-user slice of `localStorage`: raw values at `history_<user_id>`
and `position_<user_id>` (`none` = key absent). -/
structure Store where
  histSlot : Option HistStored
  posSlot : Option String
deriving DecidableEq, Repr

/-- `loadHistoryFromLocalStorage`: an absent key, the empty string, or a
string `JSON.parse` throws on (caught) all yield `[]`. -/
def loadHistoryFromLocalStorage : Option HistStored → List PairEntry
  | none => []
  | some (.json h) => h
  | some (.malformed _) => []

/-- `loadPositionFromLocalStorage`: an absent key or the empty (falsy)
string yields `-1`; otherwise the result of `parseInt(stored, 10)` is
returned as-is — its `NaN` outcome (`none`) is *not* replaced by `-1`,
because `parseInt` never throws and so the `catch` that returns `-1` never
runs. -/
def loadPositionFromLocalStorage : Option String → Option Int
  | none => some (-1)
  | some s => if s = "" then some (-1) else jsParseInt s

/-- `saveHistoryToLocalStorage` and `savePositionToLocalStorage` applied to
the session's current history and cursor: the store then holds
`JSON.stringify(history)` and `String(pos)`. -/
def saveSession (st : VotingState) : Store :=
  ⟨some (.json st.history), some (jsIntToString st.pos)⟩

/-- JS `Math.min` where the left operand may be `NaN` (`none`):
`Math.min(NaN, b) = NaN`. -/
def jsMin (a : Option Int) (b : Int) : Option Int :=
  match a with
  | none => none
  | some x => some (min x b)

/-- The load effect of `BinaryVotingPage`: restore a nonempty saved history
and clamp the saved position to the last index
(`Math.min(savedPosition, savedHistory.length - 1)`); otherwise start fresh
with `pos = -1`.  The restored cursor is `none` when the stored position
parsed to `NaN`. -/
def resumeSession (store : Store) : List PairEntry × Option Int :=
  let savedHistory := loadHistoryFromLocalStorage store.histSlot
  let savedPosition := loadPositionFromLocalStorage store.posSlot
  if savedHistory.length > 0 then
    (savedHistory, jsMin savedPosition ((savedHistory.length : Int) - 1))
  else
    (savedHistory, some (-1))

/-- The trigger of the next-pair fetch effect:
`history.length === 0 || (pos === history.length - 1 && history[pos]?.choice)`
(with `NaN` never equal to anything). -/
def needsFetch (history : List PairEntry) (pos : Option Int) : Bool :=
  decide (history.length = 0) ||
    (match pos with
     | none => false
     | some p =>
       decide (p = (history.length : Int) - 1) &&
         ((if 0 ≤ p then history.get? p.toNat else none).bind (·.choice)).isSome)

/-- The requests the page issues right after restoring from storage: the
fetch effect calls `fetchNext` — i.e. `getNextBinaryPair(user_id)` — only
when `needsFetch` holds; nothing else is requested before a server response
arrives.  In particular no index-addressed `getBinaryPair` request exists in
the page at all. -/
def resumeRequests (uid : Nat) (store : Store) : List Request :=
  if needsFetch (resumeSession store).1 (resumeSession store).2 then
    [Request.nextPair uid]
  else []

/-- Recognizer for index-addressed pair requests (`getBinaryPair`). -/
def Request.isIndexedPairRequest : Request → Bool
  | .pairAt _ _ => true
  | _ => false

/-- **C7.**  Session resume round-trip: saving `history` and `cursor` and
re-opening the session restores exactly the same history content and the
same cursor (the `Math.min` clamp is the identity under the session
invariant `pos ≤ history.length - 1`, and `parseInt` inverts `toString`).
The resumed page issues no index-addressed pair request at all, and when the
restored cursor is not on a fully-voted last entry it issues no request
whatsoever — pairs already in history are never re-requested. -/
theorem session_resume_roundtrip (st : VotingState)
    (hempty : st.history = [] → st.pos = -1)
    (hbounds : st.history ≠ [] →
      0 ≤ st.pos ∧ st.pos ≤ (st.history.length : Int) - 1) :
    resumeSession (saveSession st) = (st.history, some st.pos) ∧
    ((resumeRequests st.user_id (saveSession st)).all
      (fun r => !r.isIndexedPairRequest) = true) ∧
    (st.history ≠ [] →
      (st.pos < (st.history.length : Int) - 1 ∨
        (st.history.get? st.pos.toNat).bind (·.choice) = none) →
      resumeRequests st.user_id (saveSession st) = []) := by
  have hpos : loadPositionFromLocalStorage (saveSession st).posSlot =
      some st.pos := by
    show (if jsIntToString st.pos = "" then some (-1)
      else jsParseInt (jsIntToString st.pos)) = some st.pos
    rw [if_neg (jsIntToString_ne_empty st.pos), jsParseInt_jsIntToString]
  have hhist : loadHistoryFromLocalStorage (saveSession st).histSlot =
      st.history := rfl
  have hres : resumeSession (saveSession st) = (st.history, some st.pos) := by
    unfold resumeSession
    rw [hpos, hhist]
    by_cases hnil : st.history = []
    · rw [if_neg (by simp [hnil])]
      rw [hnil, hempty hnil]
    · have hb := hbounds hnil
      rw [if_pos (by simp [List.length_pos_iff_ne_nil, hnil])]
      simp only [jsMin]
      rw [min_eq_left hb.2]
  refine ⟨hres, ?_, ?_⟩
  · unfold resumeRequests
    by_cases h : needsFetch (resumeSession (saveSession st)).1
        (resumeSession (saveSession st)).2
    · rw [if_pos h]
      simp [Request.isIndexedPairRequest]
    · rw [if_neg h]
      simp
  · intro hnil hopen
    have hb := hbounds hnil
    unfold resumeRequests
    rw [hres]
    have hnf : needsFetch st.history (some st.pos) = false := by
      unfold needsFetch
      have hlen : ¬ (st.history.length = 0) := by
        simp [List.length_eq_zero, hnil]
      simp only [decide_eq_false hlen, Bool.false_or]
      rcases hopen with hlt | hnone
      · have : ¬ (st.pos = (st.history.length : Int) - 1) := by omega
        simp [this]
      · rw [if_pos hb.1, hnone]
        simp
    rw [hnf]
    simp

/-- Open demo session: pair 0 voted, pair 1 current and not yet voted. -/
def demoPair1Open : PairEntry := ⟨1, 100, 12, 13, none, none, none, none, none⟩

/-- Demo session whose last entry has no committed choice. -/
def demoSessionOpen : VotingState := ⟨7, [demoPair0, demoPair1Open], 1, 0⟩

/-- Witness for `session_resume_roundtrip` on the open demo session. -/
theorem session_resume_roundtrip_witness :
    (demoSessionOpen.history = [] → demoSessionOpen.pos = -1) ∧
    (demoSessionOpen.history ≠ [] →
      0 ≤ demoSessionOpen.pos ∧
      demoSessionOpen.pos ≤ (demoSessionOpen.history.length : Int) - 1) ∧
    resumeSession (saveSession demoSessionOpen) =
      (demoSessionOpen.history, some demoSessionOpen.pos) ∧
    ((resumeRequests demoSessionOpen.user_id (saveSession demoSessionOpen)).all
      (fun r => !r.isIndexedPairRequest) = true) ∧
    resumeRequests demoSessionOpen.user_id (saveSession demoSessionOpen) = [] := by
  have h := session_resume_roundtrip demoSessionOpen
    (by intro h; exact absurd h (by decide)) (fun _ => by decide)
  exact ⟨by intro h; exact absurd h (by decide), fun _ => by decide,
    h.1, h.2.1, h.2.2 (by decide) (Or.inr (by decide))⟩

/-- **C9.**  Evaluation of the storage loaders at the failing input: a
malformed stored *history* does fall back to `[]` and an absent or empty
stored *position* does fall back to `-1`, but a non-numeric stored position
string such as `"abc"` makes `parseInt` return `NaN` (`none`), not `-1` —
and the `Math.min` clamp then propagates `NaN` into the restored cursor. -/
theorem loadPosition_failing_input :
    loadHistoryFromLocalStorage (some (.malformed "not json")) = [] ∧
    loadHistoryFromLocalStorage none = [] ∧
    loadPositionFromLocalStorage none = some (-1) ∧
    loadPositionFromLocalStorage (some "") = some (-1) ∧
    loadPositionFromLocalStorage (some "abc") = none ∧
    resumeSession ⟨some (.json [demoPair0]), some "abc"⟩ = ([demoPair0], none) := by
  refine ⟨rfl, rfl, rfl, by decide, by decide, by decide⟩

/-! ## Taxonomy disambiguator (`NgramFilterPanel`)

The panel owns a `FilterState`, the ambiguity flag `isSubfieldAmbiguous`
with its `ambiguousSubfieldInfo`, and the local time window.  The flattened
hierarchy (`allFields`, `allSubfields`) is a parameter.  `applyFilters`
only invokes callbacks, modelled as an emitted event list. -/

/-- An autocomplete option (`{ id, text }`). -/
structure NgramOption where
  id : Nat
  text : String
deriving DecidableEq, Repr

/-- `FilterState` of `NgramFilterPanel`. -/
structure FilterState where
  domainId : Option Nat
  fieldId : Option Nat
  subfieldId : Option Nat
  nWords : Option Nat
  ngram : Option NgramOption
  domainName : Option String
  fieldName : Option String
  subfieldName : Option String
deriving DecidableEq, Repr

/-- A flattened field (`allFields` entry: field plus its domain). -/
structure FieldEntry where
  id : Nat
  name : String
  domain_id : Nat
  domain_name : String
deriving DecidableEq, Repr

/-- A flattened subfield (`allSubfields` entry: subfield plus ancestors). -/
structure SubfieldEntry where
  id : Nat
  name : String
  field_id : Nat
  field_name : String
  domain_id : Nat
  domain_name : String
deriving DecidableEq, Repr

/-- A candidate field recorded while ambiguous
(`{ id: s.field_id, name: s.field_name, domain_name: s.domain_name }`). -/
structure CandidateField where
  id : Nat
  name : String
  domain_name : String
deriving DecidableEq, Repr

/-- `ambiguousSubfieldInfo`. -/
structure AmbiguousInfo where
  subfieldName : String
  availableFields : List CandidateField
deriving DecidableEq, Repr

/-- The state of `NgramFilterPanel` relevant to apply/disambiguation. -/
structure PanelState where
  filters : FilterState
  isSubfieldAmbiguous : Bool
  ambiguousSubfieldInfo : Option AmbiguousInfo
  timeStart : Option String
  timeEnd : Option String
  showTimePicker : Bool
deriving DecidableEq, Repr

/-- A callback invocation emitted by `applyFilters`. -/
inductive PanelEvent where
  | filterChange (f : FilterState)
  | timeChange (start stop : Option String)
deriving DecidableEq, Repr

/-- `applyFilters`: `if (isSubfieldAmbiguous) return;` then invoke
`onFilterChange(filters)` and, when the time picker is shown,
`onTimeChange(start, end)`. -/
def applyFilters (st : PanelState) : List PanelEvent :=
  if st.isSubfieldAmbiguous then []
  else
    [PanelEvent.filterChange st.filters] ++
      (if st.showTimePicker then [PanelEvent.timeChange st.timeStart st.timeEnd]
       else [])

/-- The candidate record built from a same-named subfield. -/
def toCandidate (s : SubfieldEntry) : CandidateField :=
  ⟨s.field_id, s.field_name, s.domain_name⟩

/-- Keep the first occurrence of each candidate id (structural recursion
with the set of ids already kept). -/
def dedupByIdAux (seen : List Nat) : List CandidateField → List CandidateField
  | [] => []
  | c :: rest =>
    if c.id ∈ seen then dedupByIdAux seen rest
    else c :: dedupByIdAux (c.id :: seen) rest

/-- Keep the first occurrence of each candidate id — the
`filter((field, idx, self) => idx === self.findIndex((f) => f.id === field.id))`
deduplication. -/
def dedupById (l : List CandidateField) : List CandidateField :=
  dedupByIdAux [] l

/-- The subfield `onChange` handler.  A selected subfield whose name occurs
under more than one field while no field is chosen enters the ambiguous
state: it records the candidate fields (deduplicated by id) and the pending
name, commits `subfieldId` but not `fieldId`.  Otherwise the selection is
committed together with its ancestors and any ambiguity is cleared. -/
def subfieldChange (allSubfields : List SubfieldEntry) (st : PanelState)
    (val : Option Nat) : PanelState :=
  let selected := val.bind (fun v => allSubfields.find? (fun s => s.id == v))
  let fallthrough : PanelState :=
    { st with
      filters := { st.filters with
        subfieldId := val
        subfieldName := selected.map (·.name)
        fieldId := match selected with
          | some s => some s.field_id
          | none => st.filters.fieldId
        fieldName := match selected with
          | some s => some s.field_name
          | none => st.filters.fieldName
        domainId := match selected with
          | some s => some s.domain_id
          | none => st.filters.domainId
        domainName := match selected with
          | some s => some s.domain_name
          | none => st.filters.domainName }
      isSubfieldAmbiguous := false
      ambiguousSubfieldInfo := none }
  match selected with
  | some sel =>
    let sameNameSubfields := allSubfields.filter (fun s => s.name == sel.name)
    if 1 < sameNameSubfields.length ∧ st.filters.fieldId = none then
      { st with
        filters := { st.filters with
          subfieldId := val
          subfieldName := some sel.name
          domainId := some sel.domain_id
          domainName := some sel.domain_name }
        isSubfieldAmbiguous := true
        ambiguousSubfieldInfo :=
          some ⟨sel.name, dedupById (sameNameSubfields.map toCandidate)⟩ }
    else fallthrough
  | none => fallthrough

/-- The field `onChange` handler.  While ambiguous, choosing a field that
has a subfield with the pending name resolves `subfieldId` to that
subfield and clears the ambiguity; otherwise the field is committed and the
subfield selection reset, also clearing any ambiguity. -/
def fieldChange (allFields : List FieldEntry) (allSubfields : List SubfieldEntry)
    (st : PanelState) (val : Option Nat) : PanelState :=
  let selected := val.bind (fun v => allFields.find? (fun f => f.id == v))
  match st.isSubfieldAmbiguous, st.ambiguousSubfieldInfo, selected with
  | true, some info, some sel =>
    let correctSubfield := allSubfields.find?
      (fun s => s.field_id == sel.id && s.name == info.subfieldName)
    { st with
      filters := { st.filters with
        fieldId := val
        fieldName := some sel.name
        domainId := some sel.domain_id
        domainName := some sel.domain_name
        subfieldId := match correctSubfield with
          | some c => some c.id
          | none => st.filters.subfieldId
        subfieldName := match correctSubfield with
          | some c => some c.name
          | none => st.filters.subfieldName }
      isSubfieldAmbiguous := false
      ambiguousSubfieldInfo := none }
  | _, _, _ =>
    { st with
      filters := { st.filters with
        fieldId := val
        fieldName := selected.map (·.name)
        domainId := match selected with
          | some s => some s.domain_id
          | none => st.filters.domainId
        domainName := match selected with
          | some s => some s.domain_name
          | none => st.filters.domainName
        subfieldId := none
        subfieldName := none }
      isSubfieldAmbiguous := false
      ambiguousSubfieldInfo := none }

/-- The ids of the recorded candidate fields (empty when not ambiguous). -/
def candidateIds (st : PanelState) : List Nat :=
  match st.ambiguousSubfieldInfo with
  | some info => info.availableFields.map (·.id)
  | none => []

/-- The pending ambiguous subfield name, if any. -/
def pendingName (st : PanelState) : Option String :=
  match st.ambiguousSubfieldInfo with
  | some info => some info.subfieldName
  | none => none

/-- **C4.**  `applyFilters` is a no-op in every ambiguous state: it emits no
callback invocation at all — in particular no filter-change event carrying
the unresolved subfield id, so no query is issued from it. -/
theorem applyFilters_ambiguous_noop (st : PanelState)
    (h : st.isSubfieldAmbiguous = true) :
    applyFilters st = [] ∧
    ((applyFilters st).all
      (fun e => match e with
        | .filterChange _ => false
        | .timeChange _ _ => false) = true) := by
  unfold applyFilters
  rw [if_pos h]
  exact ⟨rfl, rfl⟩

/-- An ambiguous demo panel state (pending name "Theory"). -/
def demoAmbiguousState : PanelState :=
  { filters := ⟨none, none, some 100, none, none, some "Science", none, some "Theory"⟩
    isSubfieldAmbiguous := true
    ambiguousSubfieldInfo :=
      some ⟨"Theory", [⟨1, "Biology", "Science"⟩, ⟨2, "Physics", "Science"⟩]⟩
    timeStart := none
    timeEnd := none
    showTimePicker := true }

/-- Witness for `applyFilters_ambiguous_noop` on the demo ambiguous state. -/
theorem applyFilters_ambiguous_noop_witness :
    demoAmbiguousState.isSubfieldAmbiguous = true ∧
    (applyFilters demoAmbiguousState = [] ∧
     ((applyFilters demoAmbiguousState).all
       (fun e => match e with
         | .filterChange _ => false
         | .timeChange _ _ => false) = true)) :=
  ⟨rfl, applyFilters_ambiguous_noop demoAmbiguousState rfl⟩

theorem mem_map_id_dedupByIdAux (x : Nat) (seen : List Nat)
    (l : List CandidateField) :
    x ∈ (dedupByIdAux seen l).map (·.id) ↔ x ∈ l.map (·.id) ∧ x ∉ seen := by
  induction l generalizing seen with
  | nil => simp [dedupByIdAux]
  | cons c rest ih =>
    rw [dedupByIdAux]
    by_cases hc : c.id ∈ seen
    · rw [if_pos hc, ih]
      simp only [List.map_cons, List.mem_cons]
      constructor
      · rintro ⟨hx, hs⟩
        exact ⟨Or.inr hx, hs⟩
      · rintro ⟨hx | hx, hs⟩
        · exact absurd (hx ▸ hc) hs
        · exact ⟨hx, hs⟩
    · rw [if_neg hc]
      simp only [List.map_cons, List.mem_cons, ih, List.mem_cons]
      constructor
      · rintro (rfl | ⟨hx, hs⟩)
        · exact ⟨Or.inl rfl, hc⟩
        · exact ⟨Or.inr hx, fun hseen => hs (Or.inr hseen)⟩
      · rintro ⟨rfl | hx, hs⟩
        · exact Or.inl rfl
        · by_cases hxc : x = c.id
          · exact Or.inl hxc
          · exact Or.inr ⟨hx, fun hmem => by
              rcases hmem with h | h
              · exact hxc h
              · exact hs h⟩

theorem mem_map_id_dedupById (x : Nat) (l : List CandidateField) :
    x ∈ (dedupById l).map (·.id) ↔ x ∈ l.map (·.id) := by
  unfold dedupById
  rw [mem_map_id_dedupByIdAux]
  simp

theorem nodup_map_id_dedupByIdAux (seen : List Nat) (l : List CandidateField) :
    ((dedupByIdAux seen l).map (·.id)).Nodup := by
  induction l generalizing seen with
  | nil => simp [dedupByIdAux]
  | cons c rest ih =>
    rw [dedupByIdAux]
    by_cases hc : c.id ∈ seen
    · rw [if_pos hc]
      exact ih seen
    · rw [if_neg hc]
      simp only [List.map_cons, List.nodup_cons]
      refine ⟨?_, ih (c.id :: seen)⟩
      rw [mem_map_id_dedupByIdAux]
      rintro ⟨_, hs⟩
      exact hs (List.mem_cons_self _ _)

theorem nodup_map_id_dedupById (l : List CandidateField) :
    ((dedupById l).map (·.id)).Nodup :=
  nodup_map_id_dedupByIdAux [] l

/-- **C5.**  Taxonomy disambiguation.  Selecting by id a subfield whose name
occurs on more than one subfield while no field is chosen enters the
ambiguous state: `fieldId` stays uncommitted, the pending name is recorded,
and the candidate ids are exactly (and without duplicates) the `field_id`s
of the subfields bearing that name.  Subsequently selecting a field that has
a subfield with the pending name commits `subfieldId` to that subfield and
clears the ambiguous state. -/
theorem subfield_disambiguation (allFields : List FieldEntry)
    (allSubfields : List SubfieldEntry) (st : PanelState) (sv fv : Nat)
    (sel : SubfieldEntry) (f : FieldEntry) (sf : SubfieldEntry)
    (hsel : allSubfields.find? (fun s => s.id == sv) = some sel)
    (hmany : 1 < (allSubfields.filter (fun s => s.name == sel.name)).length)
    (hnofield : st.filters.fieldId = none)
    (hfld : allFields.find? (fun g => g.id == fv) = some f)
    (hsf : allSubfields.find?
      (fun s => s.field_id == f.id && s.name == sel.name) = some sf) :
    (subfieldChange allSubfields st (some sv)).isSubfieldAmbiguous = true ∧
    (subfieldChange allSubfields st (some sv)).filters.fieldId = none ∧
    (subfieldChange allSubfields st (some sv)).filters.subfieldId = some sv ∧
    pendingName (subfieldChange allSubfields st (some sv)) = some sel.name ∧
    (candidateIds (subfieldChange allSubfields st (some sv))).toFinset =
      ((allSubfields.filter (fun s => s.name == sel.name)).map
        (·.field_id)).toFinset ∧
    (candidateIds (subfieldChange allSubfields st (some sv))).Nodup ∧
    (fieldChange allFields allSubfields (subfieldChange allSubfields st (some sv))
      (some fv)).filters.subfieldId = some sf.id ∧
    (fieldChange allFields allSubfields (subfieldChange allSubfields st (some sv))
      (some fv)).filters.fieldId = some fv ∧
    (fieldChange allFields allSubfields (subfieldChange allSubfields st (some sv))
      (some fv)).isSubfieldAmbiguous = false ∧
    (fieldChange allFields allSubfields (subfieldChange allSubfields st (some sv))
      (some fv)).ambiguousSubfieldInfo = none := by
  have hstep : subfieldChange allSubfields st (some sv) =
      { st with
        filters := { st.filters with
          subfieldId := some sv
          subfieldName := some sel.name
          domainId := some sel.domain_id
          domainName := some sel.domain_name }
        isSubfieldAmbiguous := true
        ambiguousSubfieldInfo := some ⟨sel.name,
          dedupById ((allSubfields.filter
            (fun s => s.name == sel.name)).map toCandidate)⟩ } := by
    unfold subfieldChange
    simp only [Option.some_bind', hsel]
    rw [if_pos ⟨hmany, hnofield⟩]
  have hstep2 : fieldChange allFields allSubfields
      (subfieldChange allSubfields st (some sv)) (some fv) =
      { (subfieldChange allSubfields st (some sv)) with
        filters := { (subfieldChange allSubfields st (some sv)).filters with
          fieldId := some fv
          fieldName := some f.name
          domainId := some f.domain_id
          domainName := some f.domain_name
          subfieldId := some sf.id
          subfieldName := some sf.name }
        isSubfieldAmbiguous := false
        ambiguousSubfieldInfo := none } := by
    rw [hstep]
    unfold fieldChange
    simp only [Option.some_bind', hfld, hsf]
  refine ⟨by rw [hstep], by rw [hstep]; exact hnofield, by rw [hstep], ?_, ?_, ?_,
    by rw [hstep2], by rw [hstep2], by rw [hstep2], by rw [hstep2]⟩
  · rw [hstep]
    rfl
  · rw [hstep]
    show ((dedupById ((allSubfields.filter
      (fun s => s.name == sel.name)).map toCandidate)).map (·.id)).toFinset = _
    apply Finset.ext
    intro x
    simp only [List.mem_toFinset]
    rw [mem_map_id_dedupById]
    simp only [List.mem_map]
    constructor
    · rintro ⟨d, hd, rfl⟩
      obtain ⟨s, hs, rfl⟩ := hd
      exact ⟨s, hs, rfl⟩
    · rintro ⟨s, hs, rfl⟩
      exact ⟨toCandidate s, ⟨s, hs, rfl⟩, rfl⟩
  · rw [hstep]
    exact nodup_map_id_dedupById _

/-- Demo hierarchy: Biology and Physics both contain a subfield "Theory". -/
def demoFields : List FieldEntry :=
  [⟨1, "Biology", 10, "Science"⟩, ⟨2, "Physics", 10, "Science"⟩]

/-- Demo flattened subfields for `demoFields`. -/
def demoSubfields : List SubfieldEntry :=
  [⟨100, "Theory", 1, "Biology", 10, "Science"⟩,
   ⟨101, "Theory", 2, "Physics", 10, "Science"⟩,
   ⟨102, "Genetics", 1, "Biology", 10, "Science"⟩]

/-- The panel's initial state: nothing selected, no ambiguity. -/
def initialPanelState : PanelState :=
  { filters := ⟨none, none, none, none, none, none, none, none⟩
    isSubfieldAmbiguous := false
    ambiguousSubfieldInfo := none
    timeStart := none
    timeEnd := none
    showTimePicker := false }

/-- Witness for `subfield_disambiguation`: selecting "Theory" (id 100) with
no field chosen, then resolving with Physics (id 2) lands on Physics→Theory
(id 101). -/
theorem subfield_disambiguation_witness :
    (demoSubfields.find? (fun s => s.id == 100) =
      some ⟨100, "Theory", 1, "Biology", 10, "Science"⟩) ∧
    (1 < (demoSubfields.filter (fun s => s.name == "Theory")).length) ∧
    initialPanelState.filters.fieldId = none ∧
    ((subfieldChange demoSubfields initialPanelState (some 100)).isSubfieldAmbiguous
      = true) ∧
    ((subfieldChange demoSubfields initialPanelState (some 100)).filters.fieldId
      = none) ∧
    (candidateIds (subfieldChange demoSubfields initialPanelState (some 100))
      = [1, 2]) ∧
    ((fieldChange demoFields demoSubfields
        (subfieldChange demoSubfields initialPanelState (some 100))
        (some 2)).filters.subfieldId = some 101) ∧
    ((fieldChange demoFields demoSubfields
        (subfieldChange demoSubfields initialPanelState (some 100))
        (some 2)).isSubfieldAmbiguous = false) := by
  have h := subfield_disambiguation demoFields demoSubfields initialPanelState
    100 2 ⟨100, "Theory", 1, "Biology", 10, "Science"⟩
    ⟨2, "Physics", 10, "Science"⟩ ⟨101, "Theory", 2, "Physics", 10, "Science"⟩
    (by decide) (by decide) (by decide) (by decide) (by decide)
  exact ⟨by decide, by decide, by decide, h.1, h.2.1, by decide,
    h.2.2.2.2.2.2.1, h.2.2.2.2.2.2.2.2.1⟩

end SciNgrams
